import Mathlib

/-!
Verification development for the doot personal-assistant repository.

The Python modules under verification are shallowly embedded as executable
Lean definitions: file stores become association lists from resolved paths to
contents, fallible operations return `Except`, and the pieces of `datetime`
arithmetic that the scheduler uses are carried as explicit record fields.
Each definition names the source function it embeds.
-/

set_option maxHeartbeats 1000000
set_option maxRecDepth 100000

namespace Doot

/-! ## Python string primitives used by the embedded code -/

/-- Whitespace characters removed by Python str.strip (ASCII subset). -/
def pyIsSpace (c : Char) : Bool :=
  c = ' ' || c = '\t' || c = '\n' || c = '\r' || c = '\x0b' || c = '\x0c'

/-- Python str.strip on a character list: drop leading and trailing whitespace. -/
def pyStrip (cs : List Char) : List Char :=
  ((cs.dropWhile pyIsSpace).reverse.dropWhile pyIsSpace).reverse

/-- Python str.strip on a `String`. -/
def pyStripStr (s : String) : String := String.mk (pyStrip s.toList)

/-- Python str.rstrip on a `String`. -/
def pyRstripStr (s : String) : String :=
  String.mk ((s.toList.reverse.dropWhile pyIsSpace).reverse)

/-- Python str.startswith on character lists. -/
def listStartsWith : List Char → List Char → Bool
  | _, [] => true
  | [], _ :: _ => false
  | a :: as, b :: bs => a = b && listStartsWith as bs

/-- Python str.startswith. -/
def pyStartsWith (s pre : String) : Bool := listStartsWith s.toList pre.toList

/-- Python str.upper (ASCII). -/
def pyUpper (s : String) : String := String.mk (s.toList.map Char.toUpper)

/-- Errors raised by the embedded Python code. -/
inductive PyError
  | typeErrorUnexpectedKw (kw : String)
  | osError (path : List (List Char))
  | valueErrorReplace
  | attributeError
deriving DecidableEq

/-! ## Workspace memory store (src/memory/claw_store.py)

A requested path is a list of characters; the filesystem maps resolved
path segments to file contents. -/

/-- One element of the compiled `_ALLOWED_PATH` regex: a literal character
(matched case-insensitively, stored lowercase) or a decimal-digit class. -/
inductive PatElem
  | lit (c : Char)
  | digit
deriving DecidableEq

/-- Full match of a regex element list against a character list; literals
compare case-insensitively as `re.IGNORECASE` does. -/
def matchPat : List PatElem → List Char → Bool
  | [], [] => true
  | .lit c :: ps, a :: as => a.toLower = c && matchPat ps as
  | .digit :: ps, a :: as => a.isDigit && matchPat ps as
  | _, _ => false

/-- Literal elements of a pattern, from a lowercase string. -/
def litsOf (s : String) : List PatElem := s.toList.map .lit

/-- The MEMORY.md alternative of `_ALLOWED_PATH` (claw_store.py:13). -/
def memoryMdPat : List PatElem := litsOf "memory.md"

/-- The memory/YYYY-MM-DD.md alternative of `_ALLOWED_PATH` (claw_store.py:13). -/
def dailyPat : List PatElem :=
  litsOf "memory/" ++
    [.digit, .digit, .digit, .digit, .lit '-', .digit, .digit, .lit '-', .digit, .digit] ++
    litsOf ".md"

/-- `_ALLOWED_PATH.match(path)` with the pattern anchored on both sides. -/
def allowedPathMatch (cs : List Char) : Bool :=
  matchPat memoryMdPat cs || matchPat dailyPat cs

/-- `path.strip().replace(backslash, slash)` from `_resolve` (claw_store.py:26). -/
def normalizePath (cs : List Char) : List Char :=
  (pyStrip cs).map fun c => if c = '\\' then '/' else c

/-- Split a relative path into slash-separated segments. -/
def splitSlash : List Char → List (List Char)
  | [] => [[]]
  | c :: cs =>
    match splitSlash cs with
    | [] => [[]]
    | s :: ss => if c = '/' then [] :: s :: ss else (c :: s) :: ss

/-- `(root / path).resolve()` followed by `full.relative_to(root)`
(claw_store.py:30-34): empty and dot segments vanish, a dotdot segment pops;
popping past the root makes `relative_to` raise, modelled as `none`. -/
def resolveSegs : List (List Char) → List (List Char) → Option (List (List Char))
  | st, [] => some st.reverse
  | st, seg :: rest =>
    if seg = [] ∨ seg = ['.'] then resolveSegs st rest
    else if seg = ['.', '.'] then
      match st with
      | [] => none
      | _ :: st' => resolveSegs st' rest
    else resolveSegs (seg :: st) rest

/-- `_resolve` (claw_store.py:24): normalize, check the allow-pattern, then
resolve under the workspace root. -/
def _resolve (path : List Char) : Option (List (List Char)) :=
  let s := normalizePath path
  if allowedPathMatch s then resolveSegs [] (splitSlash s) else none

/-- Workspace-memory filesystem: resolved path segments mapped to contents. -/
abbrev ClawFS := List (List (List Char) × String)

/-- Look up a file by resolved path. -/
def fsRead (fs : ClawFS) (p : List (List Char)) : Option String :=
  (fs.find? fun e => decide (e.1 = p)).map (·.2)

/-- Create or overwrite a file (`Path.write_text`). -/
def fsWrite (fs : ClawFS) (p : List (List Char)) (c : String) : ClawFS :=
  (fs.filter fun e => !decide (e.1 = p)) ++ [(p, c)]

/-- Result dictionary of `read_memory_file`. -/
structure ReadResult where
  text : String
  rpath : List Char
deriving DecidableEq

/-- `read_memory_file` (claw_store.py:43). The optional line-range arguments
only post-process `text` after the path decision, so they are not modelled;
a missing file reads as empty text, as in the source. -/
def read_memory_file (fs : ClawFS) (path : List Char) : ReadResult :=
  match _resolve path with
  | none => ⟨"", path⟩
  | some p =>
    match fsRead fs p with
    | none => ⟨"", path⟩
    | some content => ⟨content, path⟩

/-- Result dictionary of `append_memory_file`. -/
structure AppendResult where
  ok : Bool
  error : Option String
deriving DecidableEq

/-- `append_memory_file` (claw_store.py:79): reject disallowed paths, else
append with blank-line separation and a trailing newline. Returns the result
dictionary together with the updated filesystem. -/
def append_memory_file (fs : ClawFS) (path : List Char) (content : String) :
    AppendResult × ClawFS :=
  match _resolve path with
  | none => (⟨false, some "Path not allowed"⟩, fs)
  | some p =>
    let existing := (fsRead fs p).getD ""
    let newContent :=
      pyRstripStr existing ++ (if pyStripStr existing ≠ "" then "\n\n" else "") ++
        pyStripStr content ++ "\n"
    (⟨true, none⟩, fsWrite fs p newContent)

/-- The acceptance predicate claimed by the specification, read literally:
exactly the string MEMORY.md, or exactly memory/YYYY-MM-DD.md with the
letters in that case and the Y, M, D positions decimal digits. -/
def matchPatExact : List PatElem → List Char → Bool
  | [], [] => true
  | .lit c :: ps, a :: as => a = c && matchPatExact ps as
  | .digit :: ps, a :: as => a.isDigit && matchPatExact ps as
  | _, _ => false

/-- Spec-side predicate for C1: the two path shapes with exact case. -/
def claimAllowedExact (cs : List Char) : Bool :=
  decide (cs = "MEMORY.md".toList) || matchPatExact dailyPat cs

end Doot

namespace Doot

/-! ## Path-confinement lemmas for the workspace store -/

/-- A regex element that can never match a slash. -/
def patNoSlash : PatElem → Bool
  | .lit c => c ≠ '/'
  | .digit => true

theorem matchPat_length : ∀ (ps : List PatElem) (s : List Char),
    matchPat ps s = true → s.length = ps.length
  | [], [], _ => rfl
  | [], _ :: _, h => by simp [matchPat] at h
  | .lit _ :: _, [], h => by simp [matchPat] at h
  | .digit :: _, [], h => by simp [matchPat] at h
  | .lit c :: ps, a :: as, h => by
    simp only [matchPat, Bool.and_eq_true] at h
    simp [matchPat_length ps as h.2]
  | .digit :: ps, a :: as, h => by
    simp only [matchPat, Bool.and_eq_true] at h
    simp [matchPat_length ps as h.2]

theorem matchPat_no_slash : ∀ (ps : List PatElem) (s : List Char),
    (∀ p ∈ ps, patNoSlash p = true) → matchPat ps s = true → '/' ∉ s
  | [], [], _, _ => by simp
  | [], _ :: _, _, h => by simp [matchPat] at h
  | .lit _ :: _, [], _, h => by simp [matchPat] at h
  | .digit :: _, [], _, h => by simp [matchPat] at h
  | .lit c :: ps, a :: as, hps, h => by
    simp only [matchPat, Bool.and_eq_true, decide_eq_true_eq] at h
    have hc : c ≠ '/' := by
      have := hps (.lit c) (List.mem_cons_self _ _)
      simpa [patNoSlash] using this
    have ha : a ≠ '/' := by
      intro hEq
      apply hc
      rw [hEq] at h
      exact h.1.symm ▸ rfl
    have ih := matchPat_no_slash ps as (fun p hp => hps p (List.mem_cons_of_mem _ hp)) h.2
    simp [ha, ih]
    intro hEq
    exact ha hEq.symm
  | .digit :: ps, a :: as, hps, h => by
    simp only [matchPat, Bool.and_eq_true] at h
    have ha : a ≠ '/' := by
      intro hEq
      rw [hEq] at h
      simpa using h.1
    have ih := matchPat_no_slash ps as (fun p hp => hps p (List.mem_cons_of_mem _ hp)) h.2
    simp [ha, ih]
    intro hEq
    exact ha hEq.symm

theorem splitSlash_ne_nil : ∀ (s : List Char), splitSlash s ≠ []
  | [] => by simp [splitSlash]
  | c :: cs => by
    have := splitSlash_ne_nil cs
    simp only [splitSlash]
    rcases h : splitSlash cs with _ | ⟨s, ss⟩
    · simp
    · by_cases hc : c = '/' <;> simp [hc]

theorem splitSlash_no_slash : ∀ (s : List Char), '/' ∉ s → splitSlash s = [s]
  | [], _ => rfl
  | c :: cs, h => by
    have hc : c ≠ '/' := fun hc => h (hc ▸ List.mem_cons_self c cs)
    have ih := splitSlash_no_slash cs (fun hm => h (List.mem_cons_of_mem c hm))
    have hc' : ¬(c = '/') := hc
    simp [splitSlash, ih, hc']

theorem splitSlash_append : ∀ (u v : List Char), '/' ∉ u →
    splitSlash (u ++ '/' :: v) = [] ++ u :: splitSlash v
  | [], v, _ => by
    simp only [List.nil_append, splitSlash]
    rcases h : splitSlash v with _ | ⟨s, ss⟩
    · exact absurd h (splitSlash_ne_nil v)
    · simp
  | c :: u, v, h => by
    have hc : ¬(c = '/') := fun hc => h (hc ▸ List.mem_cons_self c u)
    have ih := splitSlash_append u v (fun hm => h (List.mem_cons_of_mem c hm))
    simp only [List.nil_append] at ih
    rcases hs : splitSlash (u ++ '/' :: v) with _ | ⟨s, ss⟩
    · exact absurd hs (splitSlash_ne_nil _)
    · rw [ih] at hs
      cases hs
      simp [splitSlash, List.cons_append, ih, hc]

theorem matchPat_append : ∀ (ps qs : List PatElem) (s : List Char),
    matchPat (ps ++ qs) s = true →
    ∃ u v, s = u ++ v ∧ matchPat ps u = true ∧ matchPat qs v = true
  | [], qs, s, h => ⟨[], s, rfl, rfl, h⟩
  | .lit _ :: _, _, [], h => by simp [matchPat] at h
  | .digit :: _, _, [], h => by simp [matchPat] at h
  | .lit c :: ps, qs, a :: as, h => by
    simp only [List.cons_append, matchPat, Bool.and_eq_true] at h
    obtain ⟨u, v, rfl, hu, hv⟩ := matchPat_append ps qs as h.2
    exact ⟨a :: u, v, rfl, by simp [matchPat, h.1, hu], hv⟩
  | .digit :: ps, qs, a :: as, h => by
    simp only [List.cons_append, matchPat, Bool.and_eq_true] at h
    obtain ⟨u, v, rfl, hu, hv⟩ := matchPat_append ps qs as h.2
    exact ⟨a :: u, v, rfl, by simp [matchPat, h.1, hu], hv⟩

theorem resolveSegs_isSome : ∀ (segs st : List (List Char)),
    (∀ seg ∈ segs, seg ≠ ['.', '.']) → (resolveSegs st segs).isSome = true
  | [], st, _ => by simp [resolveSegs]
  | seg :: rest, st, h => by
    have hs : seg ≠ ['.', '.'] := h seg (List.mem_cons_self _ _)
    have ih : ∀ st', (resolveSegs st' rest).isSome = true :=
      fun st' => resolveSegs_isSome rest st' (fun x hx => h x (List.mem_cons_of_mem _ hx))
    by_cases h1 : seg = [] ∨ seg = ['.']
    · simp only [resolveSegs, if_pos h1]
      exact ih st
    · simp only [resolveSegs, if_neg h1, if_neg hs]
      exact ih _

/-- The daily-log pattern split at its slash. -/
def dailyTail : List PatElem :=
  [.digit, .digit, .digit, .digit, .lit '-', .digit, .digit, .lit '-', .digit, .digit] ++
    litsOf ".md"

theorem dailyPat_eq : dailyPat = litsOf "memory" ++ .lit '/' :: dailyTail := by decide

theorem resolve_isSome_of_match (p : List Char)
    (h : allowedPathMatch (normalizePath p) = true) : (_resolve p).isSome = true := by
  unfold _resolve
  rw [if_pos h]
  have h' : matchPat memoryMdPat (normalizePath p) = true ∨
      matchPat dailyPat (normalizePath p) = true := by
    simpa [allowedPathMatch] using h
  clear h
  revert h'
  generalize normalizePath p = s
  intro h'
  rcases h' with hm | hm
  · have hns : '/' ∉ s :=
      matchPat_no_slash memoryMdPat _ (by decide) hm
    rw [splitSlash_no_slash _ hns]
    apply resolveSegs_isSome
    intro seg hseg
    rcases List.mem_singleton.mp hseg with rfl
    have hlen := matchPat_length memoryMdPat _ hm
    intro hEq
    rw [hEq] at hlen
    simp [memoryMdPat, litsOf] at hlen
  · rw [dailyPat_eq] at hm
    obtain ⟨u, v', rfl, hu, hv'⟩ := matchPat_append _ _ _ hm
    rcases v' with _ | ⟨a, v⟩
    · simp [matchPat] at hv'
    · simp only [matchPat, Bool.and_eq_true] at hv'
      obtain ⟨-, hv⟩ := hv'
      have hulen : u.length = 6 := by
        have := matchPat_length _ _ hu
        simpa [litsOf] using this
      have hvlen : v.length = 13 := by
        have := matchPat_length _ _ hv
        simpa [dailyTail, litsOf] using this
      have hu_ns : '/' ∉ u := matchPat_no_slash _ _ (by decide) hu
      have hv_ns : '/' ∉ v := matchPat_no_slash _ _ (by decide) hv
      by_cases hc : a = '/'
      · subst hc
        rw [splitSlash_append u v hu_ns, splitSlash_no_slash v hv_ns]
        apply resolveSegs_isSome
        intro seg hseg
        simp only [List.nil_append, List.mem_cons, List.mem_singleton] at hseg
        rcases hseg with rfl | rfl | h
        · intro hEq; rw [hEq] at hulen; simp at hulen
        · intro hEq; rw [hEq] at hvlen; simp at hvlen
        · simp at h
      · have hns : '/' ∉ u ++ a :: v := by
          intro hmem
          rcases List.mem_append.mp hmem with h1 | h1
          · exact hu_ns h1
          · rcases List.mem_cons.mp h1 with h2 | h2
            · exact hc h2.symm
            · exact hv_ns h2
        rw [splitSlash_no_slash _ hns]
        apply resolveSegs_isSome
        intro seg hseg
        rcases List.mem_singleton.mp hseg with rfl
        intro hEq
        have : (u ++ a :: v).length = 2 := by rw [hEq]; rfl
        simp [hulen, hvlen] at this

/-- Acceptance of `append_memory_file` is exactly the allow-pattern test. -/
theorem append_ok_eq (fs : ClawFS) (p : List Char) (c : String) :
    (append_memory_file fs p c).1.ok = allowedPathMatch (normalizePath p) := by
  rcases hm : allowedPathMatch (normalizePath p) with _ | _
  · have : _resolve p = none := by unfold _resolve; rw [if_neg]; simp [hm]
    simp [append_memory_file, this]
  · have := resolve_isSome_of_match p hm
    rcases hr : _resolve p with _ | segs
    · rw [hr] at this; simp at this
    · simp [append_memory_file, hr]

end Doot

namespace Doot

theorem resolve_eq_none (p : List Char)
    (h : allowedPathMatch (normalizePath p) = false) : _resolve p = none := by
  unfold _resolve
  rw [if_neg]
  simp [h]

/-- Claim C1 is false as stated: the allow-pattern is compiled with
re.IGNORECASE, so the request MEMORY.MD — which is neither exactly the string
MEMORY.md nor of the memory/YYYY-MM-DD.md shape — is accepted and a file is
written for it. -/
theorem c1_counterexample :
    (append_memory_file [] "MEMORY.MD".toList "note").1.ok = true
    ∧ fsRead (append_memory_file [] "MEMORY.MD".toList "note").2 ["MEMORY.MD".toList] ≠ none
    ∧ claimAllowedExact "MEMORY.MD".toList = false := by decide

/-- Claim C1 (amended): read_memory_file and append_memory_file accept exactly
the requests whose normalized path (whitespace stripped, backslashes turned
into slashes) matches MEMORY.md or memory/YYYY-MM-DD.md case-insensitively,
and every accepted path stays under the workspace root; any other request is
rejected before touching storage (append returns ok=false and leaves the
store unchanged, read returns empty content), while the requests MEMORY.md
and memory/2026-02-26.md succeed and the three traversal examples fail. -/
theorem c1_path_confinement (fs : ClawFS) (p : List Char) (c : String) :
    ((append_memory_file fs p c).1.ok = allowedPathMatch (normalizePath p))
    ∧ (allowedPathMatch (normalizePath p) = false →
        (append_memory_file fs p c).2 = fs ∧ (read_memory_file fs p).text = "")
    ∧ (append_memory_file fs "MEMORY.md".toList c).1.ok = true
    ∧ (append_memory_file fs "memory/2026-02-26.md".toList c).1.ok = true
    ∧ (append_memory_file fs "../MEMORY.md".toList c).1.ok = false
    ∧ (append_memory_file fs "memory/not-a-date.md".toList c).1.ok = false
    ∧ (append_memory_file fs "MEMORY.md/../../etc/passwd".toList c).1.ok = false := by
  refine ⟨append_ok_eq fs p c, ?_, ?_, ?_, ?_, ?_, ?_⟩
  · intro hm
    have hr := resolve_eq_none p hm
    exact ⟨by simp [append_memory_file, hr], by simp [read_memory_file, hr]⟩
  all_goals rw [append_ok_eq]
  all_goals decide

/-- Witness for the C1 theorem: a disallowed request leaves the store alone. -/
theorem c1_path_confinement_witness :
    (append_memory_file [] "secrets.txt".toList "x").2 = ([] : ClawFS) :=
  ((c1_path_confinement [] "secrets.txt".toList "x").2.1 (by decide)).1

end Doot

namespace Doot

/-! ## Per-agent memory service (src/memory/service.py)

Paths below the agent-memory base directory are lists of path segments,
each segment a character list. The filesystem also carries the set of
paths whose write raises OSError, so persistence failures can be expressed. -/

abbrev APath := List (List Char)

/-- Agent-memory filesystem. -/
structure AgentFS where
  files : List (APath × String)
  failWrite : List APath
deriving DecidableEq

/-- Association-list lookup by path. -/
def findAssoc (l : List (APath × String)) (p : APath) : Option (APath × String) :=
  l.find? fun e => decide (e.1 = p)

/-- Association-list overwrite-or-create. -/
def setAssoc (l : List (APath × String)) (p : APath) (c : String) :
    List (APath × String) :=
  (l.filter fun e => !decide (e.1 = p)) ++ [(p, c)]

/-- `Path.read_text` guarded by `Path.exists`. -/
def afsRead (fs : AgentFS) (p : APath) : Option String :=
  (findAssoc fs.files p).map (·.2)

/-- `Path.write_text`; raises OSError for paths in `failWrite`. -/
def afsWrite (fs : AgentFS) (p : APath) (c : String) : Except PyError AgentFS :=
  if p ∈ fs.failWrite then .error (.osError p)
  else .ok (AgentFS.mk (setAssoc fs.files p c) fs.failWrite)

/-- File names ending in the md suffix, as matched by `glob` star-dot-md. -/
def endsWithMd (f : List Char) : Bool := f.reverse.take 3 = ['d', 'm', '.']

/-- Names of the md files directly inside a two-segment directory
(`skills_dir.glob` in service.py:37,50). -/
def globMd (fs : AgentFS) (dir : APath) : List (List Char) :=
  fs.files.filterMap fun e =>
    if e.1.dropLast = dir then
      match e.1.getLast? with
      | some f => if endsWithMd f then some f else none
      | none => none
    else none

/-- Lexicographic comparison of file names, as Python `sorted` uses. -/
def nameLe : List Char → List Char → Bool
  | [], _ => true
  | _ :: _, [] => false
  | a :: as, b :: bs => if a = b then nameLe as bs else decide (a < b)

/-- Insertion sort of file names. -/
def insertName (x : List Char) : List (List Char) → List (List Char)
  | [] => [x]
  | y :: ys => if nameLe x y then x :: y :: ys else y :: insertName x ys

/-- `sorted` on file names. -/
def sortNames (l : List (List Char)) : List (List Char) := l.foldr insertName []

/-- Directory-name segments used by the service. -/
def skillsSeg : List Char := "skills".toList

def failuresSeg : List Char := "failures".toList

def workingSeg : List Char := "working".toList

def identitySeg : List Char := "identity.md".toList

def mdSuffix : List Char := ".md".toList

/-- `AgentMemoryService.get_identity` (service.py:26). -/
def get_identity (fs : AgentFS) (agent_type : List Char) : String :=
  (afsRead fs [agent_type, identitySeg]).getD ""

/-- `AgentMemoryService.get_skills` (service.py:33): sorted md files joined
with the dashed separator; empty when the directory has no entries. -/
def get_skills (fs : AgentFS) (agent_type : List Char) : String :=
  String.intercalate "\n\n---\n\n"
    ((sortNames (globMd fs [agent_type, skillsSeg])).map fun f =>
      (afsRead fs [agent_type, skillsSeg, f]).getD "")

/-- `AgentMemoryService.get_failures` (service.py:40). -/
def get_failures (fs : AgentFS) (agent_type : List Char) : String :=
  String.intercalate "\n\n---\n\n"
    ((sortNames (globMd fs [agent_type, failuresSeg])).map fun f =>
      (afsRead fs [agent_type, failuresSeg, f]).getD "")

/-- `AgentMemoryService.get_working_memory` (service.py:68). -/
def get_working_memory (fs : AgentFS) (task_id agent_type : List Char) : String :=
  (afsRead fs [workingSeg, task_id, agent_type ++ mdSuffix]).getD ""

/-- `str(n).zfill(3)`. -/
def zfill3 (n : Nat) : List Char :=
  let s := (toString n).toList
  if s.length ≥ 3 then s else List.replicate (3 - s.length) '0' ++ s

/-- `title.lower().replace(space, underscore).replace(slash, underscore)`
(service.py:52). -/
def slugify (title : String) : List Char :=
  title.toList.map fun c =>
    let l := c.toLower
    if l = ' ' ∨ l = '/' then '_' else l

/-- `AgentMemoryService.save_skill` (service.py:47): number the new record
after the count of existing md files, then write it. Nothing catches the
OSError that `write_text` may raise. -/
def save_skill (fs : AgentFS) (agent_type : List Char) (title content : String) :
    Except PyError (AgentFS × APath) :=
  let dir : APath := [agent_type, skillsSeg]
  let index := zfill3 ((globMd fs dir).length + 1)
  let fname := index ++ ['_'] ++ slugify title ++ mdSuffix
  let path : APath := [agent_type, skillsSeg, fname]
  (afsWrite fs path content).map fun fs' => (fs', path)

/-- `AgentMemoryService.save_failure` (service.py:57). -/
def save_failure (fs : AgentFS) (agent_type : List Char) (title content : String) :
    Except PyError (AgentFS × APath) :=
  let dir : APath := [agent_type, failuresSeg]
  let index := zfill3 ((globMd fs dir).length + 1)
  let fname := index ++ ['_'] ++ slugify title ++ mdSuffix
  let path : APath := [agent_type, failuresSeg, fname]
  (afsWrite fs path content).map fun fs' => (fs', path)

/-- `AgentMemoryService.update_working_memory` (service.py:74). -/
def update_working_memory (fs : AgentFS) (task_id agent_type : List Char)
    (content : String) : Except PyError AgentFS :=
  afsWrite fs [workingSeg, task_id, agent_type ++ mdSuffix] content

/-! ## Memory saver (src/memory/saver.py) -/

/-- One entry of `result.get("skills_learned")`; dict keys that may be absent
are options, with the defaults applied where the source applies them. -/
structure SkillRec where
  title : Option String
  content : Option String
  applies_to : Option String
deriving DecidableEq

/-- One entry of `result.get("failures")`. -/
structure FailureRec where
  title : Option String
  site : Option String
  what_happened : Option String
  how_to_avoid : Option String
deriving DecidableEq

/-- The agent-result dictionary consumed by `save_agent_memory`. -/
structure AgentResult where
  skills_learned : List SkillRec
  failures : List FailureRec
  working_memory : Option String
  task_description : Option String
deriving DecidableEq

/-- The markdown document synthesized for a skill (saver.py:24-33). -/
def skillDoc (today task_description : String) (title content applies : String) :
    String :=
  "# Skill: " ++ title ++ "\nDate: " ++ today ++ "\nTask: " ++ task_description ++
    "\n\n## What I Learned\n" ++ content ++ "\n\n## Applies To\n" ++ applies ++ "\n"

/-- The markdown document synthesized for a failure (saver.py:39-48). -/
def failureDoc (today : String) (title site what how : String) : String :=
  "# Failure Pattern: " ++ title ++ "\nDate: " ++ today ++ "\nSite: " ++ site ++
    "\n\n## What Happened\n" ++ what ++ "\n\n## How To Avoid\n" ++ how ++ "\n"

/-- The skills loop of `save_agent_memory` (saver.py:21-34). -/
def saveSkills (today : String) (agent_type : List Char) (task_description : String) :
    AgentFS → List SkillRec → Except PyError AgentFS
  | fs, [] => .ok fs
  | fs, s :: rest => do
    let title := s.title.getD "Untitled skill"
    let doc := skillDoc today task_description title (s.content.getD "")
      (s.applies_to.getD "General")
    let (fs', _) ← save_skill fs agent_type title doc
    saveSkills today agent_type task_description fs' rest

/-- The failures loop of `save_agent_memory` (saver.py:37-49). -/
def saveFailures (today : String) (agent_type : List Char) :
    AgentFS → List FailureRec → Except PyError AgentFS
  | fs, [] => .ok fs
  | fs, f :: rest => do
    let title := f.title.getD "Untitled failure"
    let doc := failureDoc today title (f.site.getD "Unknown")
      (f.what_happened.getD "") (f.how_to_avoid.getD "")
    let (fs', _) ← save_failure fs agent_type title doc
    saveFailures today agent_type fs' rest

/-- `save_agent_memory` (saver.py:10): skills, then failures, then working
memory when truthy. The source contains no try/except, so any OSError from
the service propagates to the caller. -/
def save_agent_memory (fs : AgentFS) (agent_type task_id : List Char)
    (result : AgentResult) (today : String) : Except PyError AgentFS := do
  let fs ← saveSkills today agent_type (result.task_description.getD "") fs
    result.skills_learned
  let fs ← saveFailures today agent_type fs result.failures
  match result.working_memory with
  | some wm => if wm = "" then .ok fs else update_working_memory fs task_id agent_type wm
  | none => .ok fs

/-! ## Memory loader (src/memory/loader.py) -/

/-- Python `x or default` on strings: the empty string is falsy. -/
def orElseStr (s d : String) : String := if s = "" then d else s

/-- `load_agent_memory` (loader.py:31): one markdown block with the four
fixed sections, each falling back to its placeholder when the slice is
empty. -/
def load_agent_memory (fs : AgentFS) (agent_type task_id : List Char) : String :=
  "\n## IDENTITY & FACTS\n" ++
    orElseStr (get_identity fs agent_type) "No identity file found." ++
  "\n\n## SKILLS LEARNED FROM PAST TASKS\n" ++
    orElseStr (get_skills fs agent_type) "No skills stored yet." ++
  "\n\n## KNOWN FAILURE PATTERNS TO AVOID\n" ++
    orElseStr (get_failures fs agent_type) "No failures recorded yet." ++
  "\n\n## WHAT YOU\x27VE DONE SO FAR THIS TASK\n" ++
    orElseStr (get_working_memory fs task_id agent_type)
      "Nothing yet — this is the start of the task." ++
  "\n"

end Doot

namespace Doot

/-! ## Dispatcher agent-tools (src/graph/orchestrator.py) -/

/-- Parameter names of `create_gmail_agent` (src/agents/gmail/agent.py:26):
the factory takes no parameters. -/
def create_gmail_agent_params : List String := []

/-- Parameter names of `create_calendar_agent`
(src/agents/calendar/agent.py:36): the factory takes no parameters. -/
def create_calendar_agent_params : List String := []

/-- Python call binding for keyword arguments: a keyword that is not among
the parameters of the called function raises TypeError. -/
def bindKwargs (params kwargs : List String) : Except PyError Unit :=
  match kwargs.find? (fun k => !(params.contains k)) with
  | some k => .error (.typeErrorUnexpectedKw k)
  | none => .ok ()

/-- The configuration handed to `create_react_agent`: bound tools and the
optional pre-model hook that would prepend the memory-context block. -/
structure ReactAgentConfig where
  toolNames : List String
  pre_model_hook : Option String
deriving DecidableEq

/-- Body of `create_gmail_agent` (gmail/agent.py:26-38): the four Gmail tools,
and no pre_model_hook argument — `make_memory_modifier` is never wired in. -/
def create_gmail_agent_config : ReactAgentConfig :=
  ⟨["gmail_list_inbox", "gmail_search", "gmail_get_email", "gmail_trash_email"], none⟩

/-- Body of `create_calendar_agent` (calendar/agent.py:36-48). -/
def create_calendar_agent_config : ReactAgentConfig :=
  ⟨["calendar_list_events", "calendar_get_event", "calendar_create_event",
    "calendar_delete_event"], none⟩

/-- What one dispatcher capability invocation would do past construction. -/
structure CapabilityRun where
  memoryBlockPrepended : Bool
  saveAgentMemoryCalled : Bool
deriving DecidableEq

/-- The dispatcher gmail tool (orchestrator.py:138-144): it first calls
`create_gmail_agent(task_id=..., memory_service=...)`; binding those keywords
against the parameterless factory decides whether the loop ever runs and
whether `save_agent_memory` (line 143) is then reached. -/
def gmail_capability (_instruction : String) : Except PyError CapabilityRun :=
  match bindKwargs create_gmail_agent_params ["task_id", "memory_service"] with
  | .error e => .error e
  | .ok _ => .ok ⟨create_gmail_agent_config.pre_model_hook.isSome, true⟩

/-- The dispatcher calendar tool (orchestrator.py:148-154). -/
def calendar_capability (_instruction : String) : Except PyError CapabilityRun :=
  match bindKwargs create_calendar_agent_params ["task_id", "memory_service"] with
  | .error e => .error e
  | .ok _ => .ok ⟨create_calendar_agent_config.pre_model_hook.isSome, true⟩

/-- Claim C2 fails on the code: every invocation of the dispatcher gmail or
calendar capability raises TypeError while constructing the agent, because
the factories accept no task_id / memory_service keywords; consequently the
completion loop never runs with a memory-context block (no pre-model hook is
configured either) and save_agent_memory is never reached. -/
theorem c2_capability_type_error (instruction : String) :
    gmail_capability instruction = .error (.typeErrorUnexpectedKw "task_id")
    ∧ calendar_capability instruction = .error (.typeErrorUnexpectedKw "task_id")
    ∧ create_gmail_agent_config.pre_model_hook = none
    ∧ create_calendar_agent_config.pre_model_hook = none :=
  ⟨rfl, rfl, rfl, rfl⟩

/-! ## Claim C3: save_agent_memory and persistence failures -/

/-- A store in which writing the first gmail skill file raises OSError. -/
def c3FailState : AgentFS :=
  AgentFS.mk [] [["gmail".toList, skillsSeg, "001_t.md".toList]]

/-- A result carrying one learned skill. -/
def c3Result : AgentResult :=
  AgentResult.mk [SkillRec.mk (some "t") (some "c") none] [] none none

/-- Claim C3 fails on the code: save_agent_memory has no try/except, so the
OSError raised while persisting a skill record propagates to the caller
(first conjunct); with a healthy store the same call succeeds, showing the
raise comes precisely from the persistence failure (second conjunct). -/
theorem c3_save_agent_memory_raises :
    save_agent_memory c3FailState "gmail".toList "session".toList c3Result "2026-02-26"
      = .error (.osError ["gmail".toList, skillsSeg, "001_t.md".toList])
    ∧ ∃ fs', save_agent_memory (AgentFS.mk [] []) "gmail".toList "session".toList
        c3Result "2026-02-26" = .ok fs' := by
  exact ⟨rfl, ⟨_, rfl⟩⟩

/-! ## Claim C9: placeholder block for an empty agent memory -/

/-- Claim C9: for an agent type with no identity file, no skill files, no
failure files and no working memory, load_agent_memory returns the block
made of the four fixed section headers, each followed by its placeholder. -/
theorem c9_memory_placeholders (fs : AgentFS) (a task : List Char)
    (hid : afsRead fs [a, identitySeg] = none)
    (hsk : globMd fs [a, skillsSeg] = [])
    (hfl : globMd fs [a, failuresSeg] = [])
    (hwm : afsRead fs [workingSeg, task, a ++ mdSuffix] = none) :
    load_agent_memory fs a task =
      "\n## IDENTITY & FACTS\nNo identity file found.\n\n## SKILLS LEARNED FROM PAST TASKS\nNo skills stored yet.\n\n## KNOWN FAILURE PATTERNS TO AVOID\nNo failures recorded yet.\n\n## WHAT YOU\x27VE DONE SO FAR THIS TASK\nNothing yet — this is the start of the task.\n" := by
  have h1 : get_identity fs a = "" := by simp [get_identity, hid]
  have h2 : get_skills fs a = "" := by simp only [get_skills, hsk]; rfl
  have h3 : get_failures fs a = "" := by simp only [get_failures, hfl]; rfl
  have h4 : get_working_memory fs task a = "" := by simp [get_working_memory, hwm]
  unfold load_agent_memory
  rw [h1, h2, h3, h4]
  rfl

/-- Witness for C9 on the empty store. -/
theorem c9_memory_placeholders_witness :
    load_agent_memory (AgentFS.mk [] []) "gmail".toList "session".toList =
      "\n## IDENTITY & FACTS\nNo identity file found.\n\n## SKILLS LEARNED FROM PAST TASKS\nNo skills stored yet.\n\n## KNOWN FAILURE PATTERNS TO AVOID\nNo failures recorded yet.\n\n## WHAT YOU\x27VE DONE SO FAR THIS TASK\nNothing yet — this is the start of the task.\n" :=
  c9_memory_placeholders (AgentFS.mk [] []) "gmail".toList "session".toList rfl rfl rfl rfl

end Doot

namespace Doot

/-! ## Lemmas about the agent-memory store, toward claim C8 -/

theorem find?_filter_self_none (l : List (APath × String)) (p : APath) :
    ((l.filter fun e => !decide (e.1 = p)).find? fun e => decide (e.1 = p)) = none := by
  induction l with
  | nil => rfl
  | cons e t ih =>
    by_cases h : e.1 = p
    · simp [List.filter_cons, h, ih]
    · simp [List.filter_cons, h, List.find?, ih]

theorem find?_filter_ne (l : List (APath × String)) (p q : APath) (h : q ≠ p) :
    ((l.filter fun e => !decide (e.1 = p)).find? fun e => decide (e.1 = q))
      = l.find? fun e => decide (e.1 = q) := by
  induction l with
  | nil => rfl
  | cons e t ih =>
    have hpq : ¬(p = q) := fun hc => h hc.symm
    by_cases hep : e.1 = p
    · have heq : ¬(e.1 = q) := by rw [hep]; exact fun hc => h hc.symm
      simp [List.filter_cons, hep, List.find?, heq, ih, hpq]
    · by_cases heq : e.1 = q
      · simp [List.filter_cons, hep, List.find?, heq, ih, h]
      · simp [List.filter_cons, hep, List.find?, heq, ih, h]

theorem findAssoc_setAssoc_self (l : List (APath × String)) (p : APath) (c : String) :
    findAssoc (setAssoc l p c) p = some (p, c) := by
  unfold findAssoc setAssoc
  rw [List.find?_append, find?_filter_self_none]
  simp [List.find?]

theorem findAssoc_setAssoc_ne (l : List (APath × String)) (p : APath) (c : String)
    (q : APath) (hq : q ≠ p) : findAssoc (setAssoc l p c) q = findAssoc l q := by
  unfold findAssoc setAssoc
  rw [List.find?_append, find?_filter_ne l p q hq]
  rcases hf : l.find? fun e => decide (e.1 = q) with _ | e
  · simp [hf, List.find?, Ne.symm hq]
  · simp [hf]

theorem filter_eq_self_of_findAssoc_none : ∀ (l : List (APath × String)) (p : APath),
    findAssoc l p = none → (l.filter fun e => !decide (e.1 = p)) = l
  | [], p, _ => rfl
  | e :: t, p, h => by
    rw [findAssoc, List.find?] at h
    by_cases he : e.1 = p
    · simp [he] at h
    · have ih := filter_eq_self_of_findAssoc_none t p (by simpa [findAssoc, he] using h)
      simp [List.filter_cons, he, ih]

theorem globMd_setAssoc_fresh (fs : AgentFS) (a d f : List Char) (c : String)
    (hf : endsWithMd f = true) (hnone : findAssoc fs.files [a, d, f] = none) :
    globMd (AgentFS.mk (setAssoc fs.files [a, d, f] c) fs.failWrite) [a, d]
      = globMd fs [a, d] ++ [f] := by
  unfold globMd setAssoc
  rw [filter_eq_self_of_findAssoc_none fs.files _ hnone, List.filterMap_append]
  simp [List.dropLast, hf]

theorem findAssoc_none_of_not_mem_globMd (fs : AgentFS) (a d f : List Char)
    (hf : endsWithMd f = true) (h : f ∉ globMd fs [a, d]) :
    findAssoc fs.files [a, d, f] = none := by
  rcases he : findAssoc fs.files [a, d, f] with _ | e
  · rfl
  · exfalso
    apply h
    have hmem := List.mem_of_find?_eq_some he
    have hkey : e.1 = [a, d, f] := by
      have := List.find?_some he
      simpa using this
    unfold globMd
    apply List.mem_filterMap.mpr
    refine ⟨e, hmem, ?_⟩
    rw [hkey]
    simp [List.dropLast, hf]

/-- The file name written by the n-th skill save for a given title. -/
def skillFname (n : Nat) (title : String) : List Char :=
  zfill3 n ++ ['_'] ++ slugify title ++ mdSuffix

theorem endsWithMd_fname (i s : List Char) :
    endsWithMd (i ++ ['_'] ++ s ++ mdSuffix) = true := by
  simp [endsWithMd, mdSuffix, List.reverse_append]

theorem save_skill_step (fs : AgentFS) (a : List Char) (t c : String)
    (g : List (List Char))
    (hg : globMd fs [a, skillsSeg] = g) (hw : fs.failWrite = [])
    (hfresh : skillFname (g.length + 1) t ∉ g) :
    ∃ fs', save_skill fs a t c = .ok (fs', [a, skillsSeg, skillFname (g.length + 1) t])
      ∧ fs'.failWrite = []
      ∧ globMd fs' [a, skillsSeg] = g ++ [skillFname (g.length + 1) t]
      ∧ afsRead fs' [a, skillsSeg, skillFname (g.length + 1) t] = some c
      ∧ ∀ q, q ≠ [a, skillsSeg, skillFname (g.length + 1) t] →
          afsRead fs' q = afsRead fs q := by
  have hmd : endsWithMd (skillFname (g.length + 1) t) = true := endsWithMd_fname _ _
  have hnone : findAssoc fs.files [a, skillsSeg, skillFname (g.length + 1) t] = none := by
    apply findAssoc_none_of_not_mem_globMd fs a skillsSeg _ hmd
    rw [hg]
    exact hfresh
  refine ⟨AgentFS.mk (setAssoc fs.files [a, skillsSeg, skillFname (g.length + 1) t] c)
    fs.failWrite, ?_, ?_, ?_, ?_, ?_⟩
  · simp [save_skill, afsWrite, hg, hw, skillFname, Except.map]
  · exact hw
  · have := globMd_setAssoc_fresh fs a skillsSeg (skillFname (g.length + 1) t) c hmd hnone
    rw [this, hg]
  · simp [afsRead, findAssoc_setAssoc_self]
  · intro q hq
    simp [afsRead, findAssoc_setAssoc_ne fs.files _ c q hq]

end Doot

namespace Doot

theorem zfill3_one : zfill3 1 = ['0', '0', '1'] := by decide

theorem zfill3_two : zfill3 2 = ['0', '0', '2'] := by decide

theorem zfill3_three : zfill3 3 = ['0', '0', '3'] := by decide

/-- Claim C8: from a state with no skill files for an agent type, three skill
saves succeed, create three files whose names carry the strictly increasing
numeric prefixes 001, 002, 003, the three paths are pairwise distinct, and
after the third save the first two files still hold exactly the contents they
were written with — no existing skill file is mutated. -/
theorem c8_sequential_append (fs0 : AgentFS) (a : List Char)
    (t1 t2 t3 c1 c2 c3 : String)
    (hempty : globMd fs0 [a, skillsSeg] = []) (hw : fs0.failWrite = []) :
    ∃ fs1 fs2 fs3,
      save_skill fs0 a t1 c1 = .ok (fs1, [a, skillsSeg, skillFname 1 t1]) ∧
      save_skill fs1 a t2 c2 = .ok (fs2, [a, skillsSeg, skillFname 2 t2]) ∧
      save_skill fs2 a t3 c3 = .ok (fs3, [a, skillsSeg, skillFname 3 t3]) ∧
      skillFname 1 t1 = "001_".toList ++ slugify t1 ++ mdSuffix ∧
      skillFname 2 t2 = "002_".toList ++ slugify t2 ++ mdSuffix ∧
      skillFname 3 t3 = "003_".toList ++ slugify t3 ++ mdSuffix ∧
      skillFname 1 t1 ≠ skillFname 2 t2 ∧
      skillFname 1 t1 ≠ skillFname 3 t3 ∧
      skillFname 2 t2 ≠ skillFname 3 t3 ∧
      afsRead fs3 [a, skillsSeg, skillFname 1 t1] = some c1 ∧
      afsRead fs3 [a, skillsSeg, skillFname 2 t2] = some c2 ∧
      afsRead fs3 [a, skillsSeg, skillFname 3 t3] = some c3 := by
  have e1 : skillFname 1 t1 = "001_".toList ++ slugify t1 ++ mdSuffix := by
    rw [skillFname, zfill3_one]; rfl
  have e2 : skillFname 2 t2 = "002_".toList ++ slugify t2 ++ mdSuffix := by
    rw [skillFname, zfill3_two]; rfl
  have e3 : skillFname 3 t3 = "003_".toList ++ slugify t3 ++ mdSuffix := by
    rw [skillFname, zfill3_three]; rfl
  have n12 : skillFname 1 t1 ≠ skillFname 2 t2 := by
    rw [skillFname, skillFname, zfill3_one, zfill3_two]; intro hc; simp at hc
  have n13 : skillFname 1 t1 ≠ skillFname 3 t3 := by
    rw [skillFname, skillFname, zfill3_one, zfill3_three]; intro hc; simp at hc
  have n23 : skillFname 2 t2 ≠ skillFname 3 t3 := by
    rw [skillFname, skillFname, zfill3_two, zfill3_three]; intro hc; simp at hc
  obtain ⟨fs1, hs1, hw1, hg1, hr1, ho1⟩ :=
    save_skill_step fs0 a t1 c1 [] hempty hw (by simp)
  obtain ⟨fs2, hs2, hw2, hg2, hr2, ho2⟩ :=
    save_skill_step fs1 a t2 c2 [skillFname 1 t1] hg1 hw1
      (by simp; exact fun hc => n12 hc.symm)
  obtain ⟨fs3, hs3, hw3, hg3, hr3, ho3⟩ :=
    save_skill_step fs2 a t3 c3 [skillFname 1 t1, skillFname 2 t2] hg2 hw2
      (by simp; exact ⟨fun hc => n13 hc.symm, fun hc => n23 hc.symm⟩)
  refine ⟨fs1, fs2, fs3, hs1, hs2, hs3, e1, e2, e3, n12, n13, n23, ?_, ?_, hr3⟩
  · rw [ho3 _ (by simp [n13]), ho2 _ (by simp [n12])]
    exact hr1
  · rw [ho3 _ (by simp [n23])]
    exact hr2

/-- Witness for C8 on an empty store with concrete titles and contents. -/
theorem c8_sequential_append_witness :
    ∃ fs1 fs2 fs3,
      save_skill (AgentFS.mk [] []) "gmail".toList "a" "x" =
        .ok (fs1, ["gmail".toList, skillsSeg, skillFname 1 "a"]) ∧
      save_skill fs1 "gmail".toList "b" "y" =
        .ok (fs2, ["gmail".toList, skillsSeg, skillFname 2 "b"]) ∧
      save_skill fs2 "gmail".toList "c" "z" =
        .ok (fs3, ["gmail".toList, skillsSeg, skillFname 3 "c"]) ∧
      skillFname 1 "a" = "001_".toList ++ slugify "a" ++ mdSuffix ∧
      skillFname 2 "b" = "002_".toList ++ slugify "b" ++ mdSuffix ∧
      skillFname 3 "c" = "003_".toList ++ slugify "c" ++ mdSuffix ∧
      skillFname 1 "a" ≠ skillFname 2 "b" ∧
      skillFname 1 "a" ≠ skillFname 3 "c" ∧
      skillFname 2 "b" ≠ skillFname 3 "c" ∧
      afsRead fs3 ["gmail".toList, skillsSeg, skillFname 1 "a"] = some "x" ∧
      afsRead fs3 ["gmail".toList, skillsSeg, skillFname 2 "b"] = some "y" ∧
      afsRead fs3 ["gmail".toList, skillsSeg, skillFname 3 "c"] = some "z" :=
  c8_sequential_append (AgentFS.mk [] []) "gmail".toList "a" "b" "c" "x" "y" "z" rfl rfl

end Doot

namespace Doot

/-! ## Scheduler and heartbeat (src/webhook.py)

Local time in the configured timezone is carried as an explicit record: the
date string produced by strftime, and the hour and minute. The comparison
`now >= now.replace(hour=h, minute=m, second=0, microsecond=0)` never depends
on seconds or microseconds (they are at least the zero of the replaced value
whenever hours and minutes tie), so those fields are not carried. -/

/-- One schedule entry dictionary (`_load_schedule`, webhook.py:102): keys may
be absent. -/
structure ScheduleEntry where
  time : Option String
  task_id : Option String
  recurrence : Option String
  delivery : Option String
deriving DecidableEq

/-- `datetime.now(tz)` restricted to the fields the due-check consumes. -/
structure Now where
  date : String
  hour : Nat
  minute : Nat
deriving DecidableEq

/-- Association-list lookup for string maps (the JSON dicts of webhook.py). -/
def lookupStr (l : List (String × String)) (k : String) : Option String :=
  (l.find? fun e => decide (e.1 = k)).map (·.2)

/-- Association-list overwrite-or-create for string maps. -/
def setStr (l : List (String × String)) (k v : String) : List (String × String) :=
  (l.filter fun e => !decide (e.1 = k)) ++ [(k, v)]

/-- `_save_last_run` (webhook.py:144): record that task_id ran on date_str. -/
def _save_last_run (lastRun : List (String × String)) (task_id date_str : String) :
    List (String × String) := setStr lastRun task_id date_str

/-- `entry.get("time") or "00:00"`: a missing or empty time string defaults. -/
def timeStrOf (e : ScheduleEntry) : String :=
  match e.time with
  | none => "00:00"
  | some t => if t = "" then "00:00" else t

/-- `time_str.split(colon)`. -/
def splitColon : List Char → List (List Char)
  | [] => [[]]
  | c :: cs =>
    match splitColon cs with
    | [] => [[]]
    | s :: ss => if c = ':' then [] :: s :: ss else (c :: s) :: ss

/-- Decimal accumulator for `int`. -/
def parseNatAux : List Char → Nat → Option Nat
  | [], acc => some acc
  | c :: cs, acc =>
    if c.isDigit then parseNatAux cs (acc * 10 + (c.toNat - '0'.toNat)) else none

/-- Python `int` on a nonnegative plain-decimal string (the shape schedule
times use); anything else raises ValueError, modelled as `none`. -/
def parseNatDigits : List Char → Option Nat
  | [] => none
  | c :: cs => parseNatAux (c :: cs) 0

/-- `hour, minute = map(int, time_str.split(":")[:2])` (webhook.py:169); the
ValueError from a malformed string is caught by the surrounding try, as is
the unpacking error when the split yields a single part. -/
def parseTimeHM (s : String) : Option (Nat × Nat) :=
  match (splitColon s.toList).take 2 with
  | [hs, ms] =>
    match parseNatDigits hs, parseNatDigits ms with
    | some h, some m => some (h, m)
    | _, _ => none
  | _ => none

/-- `now >= now.replace(hour=h, minute=m, second=0, microsecond=0)`. -/
def timeReached (now : Now) (h m : Nat) : Bool :=
  decide (h < now.hour) || (decide (now.hour = h) && decide (m ≤ now.minute))

/-- An entry whose parsed time `now.replace` would accept without raising
(hour below 24 and minute below 60); entries with unparseable times are safe
because the ValueError of `map(int, ...)` is caught. -/
def timeOk (e : ScheduleEntry) : Bool :=
  match parseTimeHM (timeStrOf e) with
  | none => true
  | some (h, m) => decide (h < 24) && decide (m < 60)

/-- The loop body of `_get_due_tasks` (webhook.py:161-175) for one entry:
skip entries without a truthy task_id, entries already run today, and
entries with unparseable times; `now.replace` raises ValueError — uncaught —
on an out-of-range parsed time; otherwise the entry is due when the
scheduled time has passed. -/
def entryDue (now : Now) (lastRun : List (String × String)) (e : ScheduleEntry) :
    Except PyError Bool :=
  match e.task_id with
  | none => .ok false
  | some tid =>
    if tid = "" then .ok false
    else if lookupStr lastRun tid = some now.date then .ok false
    else
      match parseTimeHM (timeStrOf e) with
      | none => .ok false
      | some (h, m) =>
        if 24 ≤ h ∨ 60 ≤ m then .error .valueErrorReplace
        else .ok (timeReached now h m)

/-- `_get_due_tasks` (webhook.py:153): the due entries, in schedule order. -/
def _get_due_tasks (now : Now) (lastRun : List (String × String)) :
    List ScheduleEntry → Except PyError (List ScheduleEntry)
  | [] => .ok []
  | e :: rest =>
    match entryDue now lastRun e with
    | .error er => .error er
    | .ok d =>
      match _get_due_tasks now lastRun rest with
      | .error er => .error er
      | .ok ds => .ok (if d then e :: ds else ds)

/-- Outcome of `invoke_orchestrator` inside `_run_report_turn`: the call
either raises or returns a reply text. -/
inductive TurnOutcome
  | raised
  | text (s : String)
deriving DecidableEq

/-- `_run_report_turn` (webhook.py:199): exceptions are caught and logged,
an empty reply becomes None (`return last_ai_text or None`). -/
def _run_report_turn (o : TurnOutcome) : Option String :=
  match o with
  | .raised => none
  | .text s => if s = "" then none else some s

/-- `_run_scheduled_task_sync` (webhook.py:217): only the report task exists. -/
def _run_scheduled_task_sync (task_id : String) (o : TurnOutcome) : Option String :=
  if task_id = "report" then _run_report_turn o else none

/-- The state touched by a scheduled run: dated report files and the
last-run map. -/
structure SchedState where
  reports : List (String × String)
  lastRun : List (String × String)
deriving DecidableEq

/-- `_run_scheduled_task_async` (webhook.py:225): run the turn; on None or
blank output return without saving; otherwise write the dated report file,
attempt delivery (email and Telegram failures are caught inside and change
no state here), and only then record the last run. `reportWriteOk` models
whether writing the report file raises OSError, which the outer except
catches — skipping the last-run update. -/
def _run_scheduled_task_async (st : SchedState) (today : String)
    (entry : ScheduleEntry) (o : TurnOutcome) (reportWriteOk : Bool) : SchedState :=
  let task_id := entry.task_id.getD ""
  match _run_scheduled_task_sync task_id o with
  | none => st
  | some txt =>
    if pyStripStr txt = "" then st
    else if !reportWriteOk then st
    else
      SchedState.mk (setStr st.reports today (pyStripStr txt))
        (setStr st.lastRun task_id today)

/-- The sentinel (webhook.py:26). -/
def HEARTBEAT_OK : String := "HEARTBEAT_OK"

/-- `_is_heartbeat_ok` (webhook.py:367): blank replies and replies whose
stripped uppercase form equals or starts with the sentinel are suppressed. -/
def _is_heartbeat_ok (s : String) : Bool :=
  let t := pyStripStr s
  if t = "" then true
  else
    let u := pyUpper t
    decide (u = HEARTBEAT_OK) || pyStartsWith u HEARTBEAT_OK

/-- The delivery decision of one `_heartbeat_loop` iteration
(webhook.py:381-399), counted as outbound Telegram send attempts: a failed
turn or a suppressed reply sends nothing; otherwise, with a remembered chat,
one formatted send is attempted, plus one plain fallback if it raises. -/
def heartbeatSendAttempts (result : Option (String × String)) (chat : Option Int)
    (formattedSendOk : Bool) : Nat :=
  match result with
  | none => 0
  | some (lastText, _route) =>
    let t := pyStripStr lastText
    if _is_heartbeat_ok t then 0
    else
      match chat with
      | none => 0
      | some _ => if formattedSendOk then 1 else 2

end Doot

namespace Doot

/-! ## Schedule due-ness lemmas, toward claim C4 -/

theorem sfind_filter_none (l : List (String × String)) (k : String) :
    ((l.filter fun e => !decide (e.1 = k)).find? fun e => decide (e.1 = k)) = none := by
  induction l with
  | nil => rfl
  | cons e t ih =>
    by_cases h : e.1 = k
    · simp [List.filter_cons, h, ih]
    · simp [List.filter_cons, h, List.find?, ih]

theorem lookupStr_setStr_self (l : List (String × String)) (k v : String) :
    lookupStr (setStr l k v) k = some v := by
  unfold lookupStr setStr
  rw [List.find?_append, sfind_filter_none]
  simp [List.find?]

theorem entryDue_isOk (now : Now) (lr : List (String × String)) (e : ScheduleEntry)
    (hok : timeOk e = true) : ∃ b, entryDue now lr e = .ok b := by
  rcases htid : e.task_id with _ | tid
  · exact ⟨false, by simp [entryDue, htid]⟩
  · by_cases h0 : tid = ""
    · exact ⟨false, by simp [entryDue, htid, h0]⟩
    · by_cases hlr : lookupStr lr tid = some now.date
      · exact ⟨false, by simp [entryDue, htid, h0, hlr]⟩
      · rcases hp : parseTimeHM (timeStrOf e) with _ | ⟨hh, mm⟩
        · exact ⟨false, by simp [entryDue, htid, h0, hlr, hp]⟩
        · have hrange : ¬(24 ≤ hh ∨ 60 ≤ mm) := by
            unfold timeOk at hok
            rw [hp] at hok
            simp at hok
            omega
          exact ⟨timeReached now hh mm, by simp [entryDue, htid, h0, hlr, hp, hrange]⟩

theorem due_tasks_ok (now : Now) (lr : List (String × String)) :
    ∀ (sched : List ScheduleEntry), (∀ e ∈ sched, timeOk e = true) →
      ∃ l, _get_due_tasks now lr sched = .ok l ∧
        ∀ x, x ∈ l ↔ (x ∈ sched ∧ entryDue now lr x = .ok true)
  | [], _ => ⟨[], rfl, by simp⟩
  | e :: rest, h => by
    obtain ⟨b, hb⟩ := entryDue_isOk now lr e (h e (List.mem_cons_self _ _))
    obtain ⟨l, hl, hmem⟩ :=
      due_tasks_ok now lr rest (fun x hx => h x (List.mem_cons_of_mem _ hx))
    refine ⟨if b then e :: l else l, by simp [_get_due_tasks, hb, hl], ?_⟩
    intro x
    rcases b with _ | _
    · simp only [if_neg Bool.false_ne_true]
      rw [hmem x]
      constructor
      · rintro ⟨hx, hdx⟩
        exact ⟨List.mem_cons_of_mem _ hx, hdx⟩
      · rintro ⟨hx, hdx⟩
        rcases List.mem_cons.mp hx with rfl | hx'
        · rw [hb] at hdx
          simp at hdx
        · exact ⟨hx', hdx⟩
    · simp only [if_pos]
      constructor
      · intro hx
        rcases List.mem_cons.mp hx with rfl | hx'
        · exact ⟨List.mem_cons_self _ _, hb⟩
        · obtain ⟨h1, h2⟩ := (hmem x).mp hx'
          exact ⟨List.mem_cons_of_mem _ h1, h2⟩
      · rintro ⟨hx, hdx⟩
        rcases List.mem_cons.mp hx with rfl | hx'
        · exact List.mem_cons_self _ _
        · exact List.mem_cons_of_mem _ ((hmem x).mpr ⟨hx', hdx⟩)

/-- Claim C4: for a schedule entry with a truthy task_id and a parseable,
in-range time, the due-task check succeeds and returns the entry exactly when
the configured time of day has been reached and the last-run record for that
task is not today; once the last-run record for today is written the entry is
no longer returned; and due-ness is monotone within the day, so the entry
stays due at any later local time of the same date. Because membership is
an iff over an arbitrary last-run map and date, the entry becomes due again
exactly when the date rolls over and the recorded date no longer matches. -/
theorem c4_schedule_due (now : Now) (lastRun : List (String × String))
    (sched : List ScheduleEntry) (hsafe : ∀ e ∈ sched, timeOk e = true)
    (e : ScheduleEntry) (he : e ∈ sched)
    (tid : String) (htid : e.task_id = some tid) (hne : tid ≠ "")
    (h m : Nat) (hp : parseTimeHM (timeStrOf e) = some (h, m))
    (hh : h < 24) (hm : m < 60) :
    ∃ l, _get_due_tasks now lastRun sched = .ok l ∧
      (e ∈ l ↔ (lookupStr lastRun tid ≠ some now.date ∧ timeReached now h m = true)) ∧
      (∀ l', _get_due_tasks now (_save_last_run lastRun tid now.date) sched = .ok l' →
        e ∉ l') ∧
      (∀ now' : Now, now'.date = now.date →
        (now.hour < now'.hour ∨ (now'.hour = now.hour ∧ now.minute ≤ now'.minute)) →
        timeReached now h m = true → timeReached now' h m = true) := by
  have hchar : ∀ lr' : List (String × String), entryDue now lr' e = .ok true ↔
      (lookupStr lr' tid ≠ some now.date ∧ timeReached now h m = true) := by
    intro lr'
    by_cases hlr : lookupStr lr' tid = some now.date
    · simp [entryDue, htid, hne, hlr]
    · have hrange : ¬(24 ≤ h ∨ 60 ≤ m) := by omega
      simp [entryDue, htid, hne, hlr, hp, hrange]
  obtain ⟨l, hl, hmem⟩ := due_tasks_ok now lastRun sched hsafe
  refine ⟨l, hl, ?_, ?_, ?_⟩
  · rw [hmem e]
    constructor
    · rintro ⟨-, hd⟩
      exact (hchar lastRun).mp hd
    · intro hrt
      exact ⟨he, (hchar lastRun).mpr hrt⟩
  · intro l' hl' hmeml'
    obtain ⟨l2, hl2, hmem2⟩ :=
      due_tasks_ok now (_save_last_run lastRun tid now.date) sched hsafe
    have heq : l' = l2 := by
      rw [hl'] at hl2
      injection hl2
    subst heq
    obtain ⟨-, hd⟩ := (hmem2 e).mp hmeml'
    obtain ⟨hcontra, -⟩ := (hchar _).mp hd
    exact hcontra (lookupStr_setStr_self lastRun tid now.date)
  · intro now' hdate hlater hreach
    simp only [timeReached, Bool.or_eq_true, Bool.and_eq_true, decide_eq_true_eq]
      at hreach ⊢
    omega

/-- Witness for C4: a 07:00 report entry at 07:05 with no last-run record. -/
theorem c4_schedule_due_witness :
    ∃ l, _get_due_tasks (Now.mk "2026-02-26" 7 5) []
        [ScheduleEntry.mk (some "07:00") (some "report") (some "daily") (some "email")]
        = .ok l ∧
      (ScheduleEntry.mk (some "07:00") (some "report") (some "daily") (some "email") ∈ l ↔
        (lookupStr [] "report" ≠ some (Now.mk "2026-02-26" 7 5).date ∧
          timeReached (Now.mk "2026-02-26" 7 5) 7 0 = true)) ∧
      (∀ l', _get_due_tasks (Now.mk "2026-02-26" 7 5)
          (_save_last_run [] "report" (Now.mk "2026-02-26" 7 5).date)
          [ScheduleEntry.mk (some "07:00") (some "report") (some "daily") (some "email")]
          = .ok l' →
        ScheduleEntry.mk (some "07:00") (some "report") (some "daily") (some "email") ∉ l') ∧
      (∀ now' : Now, now'.date = (Now.mk "2026-02-26" 7 5).date →
        ((Now.mk "2026-02-26" 7 5).hour < now'.hour ∨
          (now'.hour = (Now.mk "2026-02-26" 7 5).hour ∧
            (Now.mk "2026-02-26" 7 5).minute ≤ now'.minute)) →
        timeReached (Now.mk "2026-02-26" 7 5) 7 0 = true →
        timeReached now' 7 0 = true) :=
  c4_schedule_due (Now.mk "2026-02-26" 7 5) []
    [ScheduleEntry.mk (some "07:00") (some "report") (some "daily") (some "email")]
    (by decide)
    (ScheduleEntry.mk (some "07:00") (some "report") (some "daily") (some "email"))
    (List.mem_singleton.mpr rfl) "report" rfl (by decide) 7 0 (by decide)
    (by decide) (by decide)

end Doot

namespace Doot

/-- Claim C5: a scheduled run whose turn raised or produced no (or blank)
output leaves the whole scheduler state — in particular the last-run record —
unchanged, so the task stays eligible for the rest of the day; conversely
any change to the last-run map can only happen for the report task after a
non-blank reply was produced and the dated report file was successfully
written, and then the record holds today; and in that successful case both
the saved report and the last-run record are present. -/
theorem c5_failed_task_keeps_last_run (st : SchedState) (today : String)
    (entry : ScheduleEntry) (o : TurnOutcome) (wOk : Bool) :
    ((o = .raised ∨ ∃ s, o = .text s ∧ pyStripStr s = "") →
      _run_scheduled_task_async st today entry o wOk = st)
    ∧ ((_run_scheduled_task_async st today entry o wOk).lastRun ≠ st.lastRun →
        entry.task_id = some "report" ∧ wOk = true ∧
        ∃ s, o = .text s ∧ pyStripStr s ≠ "" ∧
          lookupStr (_run_scheduled_task_async st today entry o wOk).reports today
            = some (pyStripStr s) ∧
          lookupStr (_run_scheduled_task_async st today entry o wOk).lastRun "report"
            = some today)
    ∧ (∀ s, o = .text s → pyStripStr s ≠ "" → entry.task_id = some "report" →
        wOk = true →
        lookupStr (_run_scheduled_task_async st today entry o wOk).lastRun "report"
          = some today ∧
        lookupStr (_run_scheduled_task_async st today entry o wOk).reports today
          = some (pyStripStr s)) := by
  refine ⟨?_, ?_, ?_⟩
  · rintro (rfl | ⟨s, rfl, hs⟩)
    · simp [_run_scheduled_task_async, _run_scheduled_task_sync, _run_report_turn]
    · by_cases hs0 : s = ""
      · simp [_run_scheduled_task_async, _run_scheduled_task_sync, _run_report_turn, hs0]
      · by_cases ht : entry.task_id.getD "" = "report" <;>
          simp [_run_scheduled_task_async, _run_scheduled_task_sync, _run_report_turn,
            hs0, hs, ht]
  · intro hne
    rcases o with _ | s
    · exact absurd (by simp [_run_scheduled_task_async, _run_scheduled_task_sync,
        _run_report_turn]) hne
    · by_cases hs0 : s = ""
      · exact absurd (by simp [_run_scheduled_task_async, _run_scheduled_task_sync,
          _run_report_turn, hs0]) hne
      · by_cases hstrip : pyStripStr s = ""
        · exact absurd (by by_cases ht : entry.task_id.getD "" = "report" <;>
            simp [_run_scheduled_task_async, _run_scheduled_task_sync,
              _run_report_turn, hs0, hstrip, ht]) hne
        · rcases htid : entry.task_id with _ | t
          · exact absurd (by simp [_run_scheduled_task_async, _run_scheduled_task_sync,
              _run_report_turn, htid]) hne
          · by_cases ht : t = "report"
            · subst ht
              rcases hw : wOk with _ | _
              · exact absurd (by simp [_run_scheduled_task_async,
                  _run_scheduled_task_sync, _run_report_turn, htid, hs0, hstrip, hw]) hne
              · refine ⟨rfl, rfl, s, rfl, hstrip, ?_, ?_⟩
                · simp [_run_scheduled_task_async, _run_scheduled_task_sync,
                    _run_report_turn, htid, hs0, hstrip, hw, lookupStr_setStr_self]
                · simp [_run_scheduled_task_async, _run_scheduled_task_sync,
                    _run_report_turn, htid, hs0, hstrip, hw, lookupStr_setStr_self]
            · exact absurd (by simp [_run_scheduled_task_async,
                _run_scheduled_task_sync, _run_report_turn, htid, ht]) hne
  · rintro s rfl hstrip htid hw
    subst hw
    by_cases hs0 : s = ""
    · exact absurd (by simp [hs0, pyStripStr, pyStrip]) hstrip
    · constructor
      · simp [_run_scheduled_task_async, _run_scheduled_task_sync, _run_report_turn,
          htid, hs0, hstrip, lookupStr_setStr_self]
      · simp [_run_scheduled_task_async, _run_scheduled_task_sync, _run_report_turn,
          htid, hs0, hstrip, lookupStr_setStr_self]

/-- Witness for C5: a raised turn changes nothing. -/
theorem c5_failed_task_keeps_last_run_witness :
    _run_scheduled_task_async (SchedState.mk [] []) "2026-02-26"
      (ScheduleEntry.mk (some "07:00") (some "report") (some "daily") (some "email"))
      .raised true = SchedState.mk [] [] :=
  (c5_failed_task_keeps_last_run (SchedState.mk [] []) "2026-02-26"
    (ScheduleEntry.mk (some "07:00") (some "report") (some "daily") (some "email"))
    .raised true).1 (Or.inl rfl)

end Doot

namespace Doot

/-! ## Heartbeat-suppression lemmas, toward claim C6 -/

theorem dropWhile_idem (p : Char → Bool) (l : List Char) :
    (l.dropWhile p).dropWhile p = l.dropWhile p := by
  induction l with
  | nil => rfl
  | cons a t ih =>
    by_cases h : p a
    · simp [List.dropWhile_cons, h, ih]
    · simp [List.dropWhile_cons, h]

theorem dropWhile_head_false (p : Char → Bool) :
    ∀ (l : List Char) (a : Char) (t : List Char),
      l.dropWhile p = a :: t → p a = false
  | [], a, t, h => by simp [List.dropWhile] at h
  | b :: bs, a, t, h => by
    by_cases hb : p b
    · rw [List.dropWhile_cons, if_pos hb] at h
      exact dropWhile_head_false p bs a t h
    · rw [List.dropWhile_cons, if_neg hb] at h
      injection h with h1 _
      subst h1
      simpa using hb

theorem dropWhile_suffix_exists (p : Char → Bool) :
    ∀ (l : List Char), ∃ u, u ++ l.dropWhile p = l
  | [] => ⟨[], rfl⟩
  | a :: t => by
    by_cases h : p a
    · obtain ⟨u, hu⟩ := dropWhile_suffix_exists p t
      exact ⟨a :: u, by simp [List.dropWhile_cons, h, hu]⟩
    · exact ⟨[], by simp [List.dropWhile_cons, h]⟩

theorem pyStrip_idem (l : List Char) : pyStrip (pyStrip l) = pyStrip l := by
  have hBdrop : (pyStrip l).dropWhile pyIsSpace = pyStrip l := by
    rcases hc : pyStrip l with _ | ⟨b, bs⟩
    · rfl
    · obtain ⟨u, hu⟩ :=
        dropWhile_suffix_exists pyIsSpace (l.dropWhile pyIsSpace).reverse
      have hpre : l.dropWhile pyIsSpace = pyStrip l ++ u.reverse := by
        have h2 := congrArg List.reverse hu
        simpa [pyStrip, List.reverse_append] using h2.symm
      rcases hA : l.dropWhile pyIsSpace with _ | ⟨a0, arest⟩
      · rw [hA, hc] at hpre
        simp at hpre
      · have hb0 : pyIsSpace a0 = false := dropWhile_head_false pyIsSpace l a0 arest hA
        rw [hA, hc] at hpre
        simp only [List.cons_append] at hpre
        injection hpre with h1 _
        have hb : pyIsSpace b = false := h1 ▸ hb0
        rw [List.dropWhile_cons, hb]
        simp
  have hBrev : (pyStrip l).reverse = (l.dropWhile pyIsSpace).reverse.dropWhile pyIsSpace := by
    simp [pyStrip]
  show (((pyStrip l).dropWhile pyIsSpace).reverse.dropWhile pyIsSpace).reverse = pyStrip l
  rw [hBdrop, hBrev, dropWhile_idem]
  simp [pyStrip]

theorem pyStripStr_idem (s : String) : pyStripStr (pyStripStr s) = pyStripStr s := by
  show String.mk (pyStrip (pyStrip s.toList)) = String.mk (pyStrip s.toList)
  rw [pyStrip_idem]

theorem listStartsWith_rfl : ∀ (l : List Char), listStartsWith l l = true
  | [] => rfl
  | a :: t => by simp [listStartsWith, listStartsWith_rfl t]

theorem is_heartbeat_ok_strip (s : String) :
    _is_heartbeat_ok (pyStripStr s) = _is_heartbeat_ok s := by
  unfold _is_heartbeat_ok
  rw [pyStripStr_idem]

/-- Claim C6 is false as stated: the sentinel comparison upper-cases the
stripped reply first, so the non-empty reply heartbeat_ok — which neither
equals HEARTBEAT_OK nor starts with it — is still suppressed and triggers no
outbound delivery attempt. -/
theorem c6_counterexample :
    _is_heartbeat_ok "heartbeat_ok" = true
    ∧ heartbeatSendAttempts (some ("heartbeat_ok", "direct")) (some 1) true = 0
    ∧ ("heartbeat_ok" = "HEARTBEAT_OK" → False)
    ∧ pyStartsWith "heartbeat_ok" "HEARTBEAT_OK" = false := by
  refine ⟨by decide, by decide, by decide, by decide⟩

/-- Claim C6 (amended): a heartbeat reply is suppressed exactly when it is
whitespace-only or its stripped, upper-cased form starts with (in particular
equals) the sentinel HEARTBEAT_OK — the comparison is case-insensitive; a
suppressed reply or a failed turn triggers no outbound delivery attempt, and
any other reply triggers exactly one delivery attempt to the remembered chat
(the code adds one plain-text retry only if that formatted send raises). -/
theorem c6_heartbeat_suppression (t route : String) (chat : Option Int)
    (sendOk : Bool) :
    (_is_heartbeat_ok t =
      ((pyStripStr t = "") || pyStartsWith (pyUpper (pyStripStr t)) HEARTBEAT_OK))
    ∧ (_is_heartbeat_ok t = true →
        heartbeatSendAttempts (some (t, route)) chat sendOk = 0)
    ∧ (_is_heartbeat_ok t = false → ∀ c : Int,
        heartbeatSendAttempts (some (t, route)) (some c) true = 1)
    ∧ heartbeatSendAttempts none chat sendOk = 0 := by
  refine ⟨?_, ?_, ?_, rfl⟩
  · by_cases ht : pyStripStr t = ""
    · simp [_is_heartbeat_ok, ht]
    · by_cases hu : pyUpper (pyStripStr t) = HEARTBEAT_OK
      · simp [_is_heartbeat_ok, ht, hu, pyStartsWith, listStartsWith_rfl]
      · simp [_is_heartbeat_ok, ht, hu]
  · intro hok
    simp [heartbeatSendAttempts, is_heartbeat_ok_strip, hok]
  · intro hok c
    simp [heartbeatSendAttempts, is_heartbeat_ok_strip, hok]

/-- Witness for C6: a real report is delivered once. -/
theorem c6_heartbeat_suppression_witness :
    heartbeatSendAttempts (some ("2 important emails need replies", "gmail"))
      (some 5) true = 1 :=
  (c6_heartbeat_suppression "2 important emails need replies" "gmail" (some 5)
    true).2.2.1 (by decide) 5

end Doot

namespace Doot

/-! ## Session store (src/session.py) -/

/-- One content block of a block-list message content: a dict with an
optional text field, or a non-dict value; `reprStr` stands for the Python
str() rendering used as fallback. -/
inductive LCBlock
  | dict (text : Option String) (reprStr : String)
  | other (reprStr : String)
deriving DecidableEq

/-- Message content: plain text or a list of typed blocks. -/
inductive LCContent
  | str (s : String)
  | blocks (bs : List LCBlock)
deriving DecidableEq

/-- A langchain message as the session and adapters see it. -/
inductive LCMessage
  | human (content : LCContent)
  | ai (content : LCContent)
  | system (content : LCContent)
  | toolMsg (content : LCContent)
deriving DecidableEq

/-- `str(content)` for a human message whose content is not a string
(session.py:56); the block-list rendering stands for the Python repr, which
plain-text round-trips never reach. -/
def pyStrOfContent : LCContent → String
  | .str s => s
  | .blocks _ => "[non-text content]"

/-- `block.get("text", str(block)) if isinstance(block, dict) else str(block)`
(session.py:61). -/
def blockText : LCBlock → String
  | .dict (some t) _ => t
  | .dict none r => r
  | .other r => r

/-- The AI-content normalization of `save_session` (session.py:58-64). -/
def aiContentToStr : LCContent → String
  | .str s => s
  | .blocks bs => String.intercalate "\n" (bs.map blockText)

/-- One persisted row of the session JSON array; `content` is an option
because `load_session` tolerates a null content (session.py:38). -/
structure SessionRow where
  role : String
  content : Option String
deriving DecidableEq

/-- The row `save_session` (session.py:47) emits for one message: human and
ai messages are kept, everything else is dropped. -/
def rowOf : LCMessage → Option SessionRow
  | .human c => some (SessionRow.mk "human" (some (pyStrOfContent c)))
  | .ai c => some (SessionRow.mk "ai" (some (aiContentToStr c)))
  | _ => none

/-- `save_session` (session.py:47). -/
def save_session (msgs : List LCMessage) : List SessionRow := msgs.filterMap rowOf

/-- `load_session` (session.py:19): human and ai rows become messages with
plain-text content (null content read as empty), other roles are skipped. -/
def load_session (rows : List SessionRow) : List LCMessage :=
  rows.filterMap fun r =>
    if r.role = "human" then some (.human (.str (r.content.getD "")))
    else if r.role = "ai" then some (.ai (.str (r.content.getD "")))
    else none

/-- A user or assistant turn whose content is already plain text. -/
def isPlainTurn : LCMessage → Bool
  | .human (.str _) => true
  | .ai (.str _) => true
  | _ => false

theorem load_save_id : ∀ (msgs : List LCMessage),
    (∀ m ∈ msgs, isPlainTurn m = true) → load_session (save_session msgs) = msgs
  | [], _ => rfl
  | m :: rest, h => by
    have hm := h m (List.mem_cons_self _ _)
    have ih := load_save_id rest (fun x hx => h x (List.mem_cons_of_mem _ hx))
    rcases m with c | c | c | c
    · rcases c with s | bs
      · simpa [save_session, load_session, rowOf, List.filterMap_cons,
          pyStrOfContent] using ih
      · simp [isPlainTurn] at hm
    · rcases c with s | bs
      · simpa [save_session, load_session, rowOf, List.filterMap_cons,
          aiContentToStr] using ih
      · simp [isPlainTurn] at hm
    · simp [isPlainTurn] at hm
    · simp [isPlainTurn] at hm

/-- Claim C7: saving a conversation of alternating plain-text user and
assistant messages and reloading it yields exactly the same messages — the
same count, the same roles, the same text content. (Proved for every list of
plain-text user/assistant messages, alternating or not.) -/
theorem c7_session_round_trip (msgs : List LCMessage)
    (h : ∀ m ∈ msgs, isPlainTurn m = true) :
    load_session (save_session msgs) = msgs ∧
    (load_session (save_session msgs)).length = msgs.length := by
  have main := load_save_id msgs h
  exact ⟨main, by rw [main]⟩

/-- Witness for C7 on a two-turn conversation. -/
theorem c7_session_round_trip_witness :
    load_session (save_session [LCMessage.human (LCContent.str "hi"),
        LCMessage.ai (LCContent.str "hello")]) =
      [LCMessage.human (LCContent.str "hi"), LCMessage.ai (LCContent.str "hello")] ∧
    (load_session (save_session [LCMessage.human (LCContent.str "hi"),
        LCMessage.ai (LCContent.str "hello")])).length =
      [LCMessage.human (LCContent.str "hi"), LCMessage.ai (LCContent.str "hello")].length :=
  c7_session_round_trip
    [LCMessage.human (LCContent.str "hi"), LCMessage.ai (LCContent.str "hello")]
    (by decide)

/-! ## Web-search adapter (src/agents/websearch/agent.py) -/

/-- `isinstance(msg, HumanMessage)` for the backwards scan (agent.py:22). -/
def isHumanMsg : LCMessage → Bool
  | .human _ => true
  | _ => false

/-- `_WebSearchAgent.invoke` (websearch/agent.py:19): find the last user
message; with none, or with blank string content, return the message list
unchanged and do not search; `searchReply` stands for the formatted external
search response appended otherwise. A block-list content makes the
`getattr(...).strip()` guard raise AttributeError, modelled as `.error`. The
Bool records whether the external search call was made. -/
def websearch_invoke (msgs : List LCMessage) (searchReply : String) :
    Except PyError (List LCMessage × Bool) :=
  match msgs.reverse.find? isHumanMsg with
  | none => .ok (msgs, false)
  | some m =>
    match m with
    | .human (.str s) =>
      if pyStripStr s = "" then .ok (msgs, false)
      else .ok (msgs ++ [.ai (.str searchReply)], true)
    | .human (.blocks _) => .error .attributeError
    | _ => .ok (msgs, false)

/-- Claim C10: a conversation with no user message, or whose last user
message has empty or whitespace-only text content, is returned unchanged by
the web-search adapter — no search call is made and no assistant message is
appended. -/
theorem c10_websearch_no_query (msgs : List LCMessage) (reply : String) :
    ((∀ m ∈ msgs, isHumanMsg m = false) →
      websearch_invoke msgs reply = .ok (msgs, false))
    ∧ (∀ s, msgs.reverse.find? isHumanMsg = some (.human (.str s)) →
        pyStripStr s = "" → websearch_invoke msgs reply = .ok (msgs, false)) := by
  constructor
  · intro h
    have hf : msgs.reverse.find? isHumanMsg = none := by
      rw [List.find?_eq_none]
      intro x hx
      simp [h x (List.mem_reverse.mp hx)]
    simp [websearch_invoke, hf]
  · intro s hs hstrip
    simp [websearch_invoke, hs, hstrip]

/-- Witness for C10: an assistant-only conversation and a whitespace-only
user query are both left unchanged. -/
theorem c10_websearch_no_query_witness :
    websearch_invoke [LCMessage.ai (LCContent.str "hi")] "r" =
      .ok ([LCMessage.ai (LCContent.str "hi")], false)
    ∧ websearch_invoke [LCMessage.human (LCContent.str "   ")] "r" =
      .ok ([LCMessage.human (LCContent.str "   ")], false) :=
  ⟨(c10_websearch_no_query [LCMessage.ai (LCContent.str "hi")] "r").1 (by decide),
   (c10_websearch_no_query [LCMessage.human (LCContent.str "   ")] "r").2 "   "
     (by decide) (by decide)⟩

end Doot
